import Mathlib

/-!
# Verification of the PixelCNN image-completion notebook

A shallow embedding of `src/pixelCNN2.ipynb` (Omarmahmoud711/PixelCNN).

Pixel values, weights and biases are modelled as real numbers; a
single-channel image grid is a function `Fin n → Fin n → ℝ` and feature maps
carry an extra channel index.  Convolution with zero padding `k / 2` is
embedded directly (`conv2d`); the mask construction of
`MaskedConv2d.__init__`, the in-place weight masking of
`MaskedConv2d.forward`, the `PixelCNN` stack, `split_top_bottom` and
`complete_images` are translated from the notebook source.
-/

noncomputable section

namespace PixelCNNRepo

/-- The `mask_type` flag of `MaskedConv2d`: the notebook asserts it is the
string `'A'` or `'B'`; we carry the two legal values as an inductive type. -/
inductive MaskType where
  | A : MaskType
  | B : MaskType
deriving DecidableEq

/-- The column offset `(mask_type == 'B')` added to `W // 2` in
`self.mask[:, :, H // 2, W // 2 + (mask_type == 'B'):] = 0`: Python booleans
are 0 or 1 as integers. -/
def maskOffset : MaskType → ℕ
  | .A => 0
  | .B => 1

/-- The mask entry at kernel position `(i, j)` built by
`MaskedConv2d.__init__` for a kernel of height `H` and width `W`:
the buffer is filled with 1 (`self.mask.fill_(1)`), then
`self.mask[:, :, H // 2, W // 2 + (mask_type == 'B'):] = 0` zeroes the tail
of the centre row and `self.mask[:, :, H // 2 + 1:] = 0` zeroes every row
below the centre.  All `(out_channel, in_channel)` slices are identical, so
the mask is a function of `(i, j)` alone. -/
def mkMask (mt : MaskType) (H W : ℕ) (i j : ℕ) : ℝ :=
  if H / 2 + 1 ≤ i then 0
  else if i = H / 2 ∧ W / 2 + maskOffset mt ≤ j then 0
  else 1

/-- Parameters of one `nn.Conv2d` layer: a weight tensor indexed by
(out-channel, in-channel, kernel row, kernel column) and a bias per
out-channel.  The kernel is square of side `k`, as in the notebook
(`kernel_size` is a single integer). -/
structure ConvParams (cin cout k : ℕ) where
  weight : Fin cout → Fin cin → Fin k → Fin k → ℝ
  bias : Fin cout → ℝ

/-- Zero-padded read of an `n × n` grid at integer coordinates:
out-of-range reads return 0, matching PyTorch zero padding. -/
def readPad {n : ℕ} (x : Fin n → Fin n → ℝ) (r c : ℤ) : ℝ :=
  if h : 0 ≤ r ∧ r < (n : ℤ) ∧ 0 ≤ c ∧ c < (n : ℤ) then
    x ⟨r.toNat, by omega⟩ ⟨c.toNat, by omega⟩
  else 0

/-- `nn.Conv2d` with stride 1 and zero padding `k / 2` (the notebook passes
`padding = kernel_size // 2` to the masked layers and the default padding 0
to the final `1 × 1` layer, and `1 / 2 = 0`): output spatial size equals the
input spatial size. -/
def conv2d {cin cout k n : ℕ} (p : ConvParams cin cout k)
    (x : Fin cin → Fin n → Fin n → ℝ) : Fin cout → Fin n → Fin n → ℝ :=
  fun o r c => p.bias o +
    ∑ ic : Fin cin, ∑ i : Fin k, ∑ j : Fin k,
      p.weight o ic i j *
        readPad (x ic) ((r.val : ℤ) + (i.val : ℤ) - ((k / 2 : ℕ) : ℤ))
          ((c.val : ℤ) + (j.val : ℤ) - ((k / 2 : ℕ) : ℤ))

/-- `self.weight.data *= self.mask`: every weight entry is multiplied by the
mask entry at its kernel position. -/
def maskWeights {cin cout k : ℕ} (mt : MaskType) (p : ConvParams cin cout k) :
    ConvParams cin cout k :=
  { weight := fun o ic i j => p.weight o ic i j * mkMask mt k k i.val j.val
    bias := p.bias }

/-- The value returned by `MaskedConv2d.forward`: the convolution computed
with the masked weights. -/
def maskedConvForward {cin cout k n : ℕ} (mt : MaskType)
    (p : ConvParams cin cout k) (x : Fin cin → Fin n → Fin n → ℝ) :
    Fin cout → Fin n → Fin n → ℝ :=
  conv2d (maskWeights mt p) x

/-- `MaskedConv2d.forward` with its in-place state change made explicit: the
stored weights become the masked weights (`self.weight.data *= self.mask`)
and the output is the convolution with those new weights. -/
def maskedConvForwardSt {cin cout k n : ℕ} (mt : MaskType)
    (p : ConvParams cin cout k) (x : Fin cin → Fin n → Fin n → ℝ) :
    ConvParams cin cout k × (Fin cout → Fin n → Fin n → ℝ) :=
  (maskWeights mt p, maskedConvForward mt p x)

/-- Raster (row-major) order on grid coordinates: `(a, b)` comes strictly
before `(r, c)`. -/
def rasterLt (a b r c : ℕ) : Prop := a < r ∨ (a = r ∧ b < c)

/-- Raster (row-major) order on grid coordinates: `(a, b)` comes at or
before `(r, c)`. -/
def rasterLe (a b r c : ℕ) : Prop := a < r ∨ (a = r ∧ b ≤ c)

instance (a b r c : ℕ) : Decidable (rasterLt a b r c) := by
  unfold rasterLt; infer_instance

instance (a b r c : ℕ) : Decidable (rasterLe a b r c) := by
  unfold rasterLe; infer_instance

/-- `nn.ReLU` applied pointwise to a feature map. -/
def reluMap {ch n : ℕ} (x : Fin ch → Fin n → Fin n → ℝ) :
    Fin ch → Fin n → Fin n → ℝ :=
  fun c r col => max (x c r col) 0

/-- `torch.sigmoid`. -/
def sigmoid (t : ℝ) : ℝ := 1 / (1 + Real.exp (-t))

/-- One hidden block of `PixelCNN`: a mask-`'B'` convolution followed by
`nn.ReLU`. -/
def blockB {hc n k : ℕ} (q : ConvParams hc hc k)
    (x : Fin hc → Fin n → Fin n → ℝ) : Fin hc → Fin n → Fin n → ℝ :=
  reluMap (maskedConvForward .B q x)

/-- The chain of hidden mask-`'B'` blocks, applied left to right. -/
def hiddenStack {hc n k : ℕ} (qs : List (ConvParams hc hc k))
    (x : Fin hc → Fin n → Fin n → ℝ) : Fin hc → Fin n → Fin n → ℝ :=
  qs.foldl (fun acc q => blockB q acc) x

/-- Parameters of the `PixelCNN` network: the first mask-`'A'` layer
(`input_channels → hidden_channels`, kernel 7), the list of hidden
mask-`'B'` layers (kernel 7; the notebook builds `num_layers - 2 = 4` of
them), and the final `1 × 1` convolution back to `input_channels`. -/
structure PixelCNNParams (cin hc : ℕ) where
  first : ConvParams cin hc 7
  hidden : List (ConvParams hc hc 7)
  final : ConvParams hc cin 1

/-- `PixelCNN.forward`: mask-`'A'` layer, ReLU, the hidden mask-`'B'`
blocks, the final `1 × 1` convolution, and `torch.sigmoid`. -/
def pixelCNNForward {cin hc n : ℕ} (P : PixelCNNParams cin hc)
    (x : Fin cin → Fin n → Fin n → ℝ) : Fin cin → Fin n → Fin n → ℝ :=
  fun ch r c =>
    sigmoid
      (conv2d P.final
        (hiddenStack P.hidden (reluMap (maskedConvForward .A P.first x)))
        ch r c)

/-- `split_top_bottom`: both halves start as clones of the batch
(`images.clone()`), then `top_half[:, :, 14:, :] = 0` zeroes every row from
the vertical midpoint 14 downward and `bottom_half[:, :, :14, :] = 0`
zeroes every row above it.  Indexing is (batch, channel, row, column) and
the images are 28 × 28. -/
def split_top_bottom {b ch : ℕ} (images : Fin b → Fin ch → Fin 28 → Fin 28 → ℝ) :
    (Fin b → Fin ch → Fin 28 → Fin 28 → ℝ) × (Fin b → Fin ch → Fin 28 → Fin 28 → ℝ) :=
  (fun i c r col => if 14 ≤ r.val then 0 else images i c r col,
   fun i c r col => if r.val < 14 then 0 else images i c r col)

/-- The completed batch built inside `complete_images`:
`top_half, _ = split_top_bottom(images)`,
`predicted_bottom_half = model(top_half)`,
`completed_images = top_half + predicted_bottom_half`.
The network runs on each image of the batch independently. -/
def complete_images {b cin hc : ℕ} (P : PixelCNNParams cin hc)
    (images : Fin b → Fin cin → Fin 28 → Fin 28 → ℝ) :
    Fin b → Fin cin → Fin 28 → Fin 28 → ℝ :=
  fun i ch r c =>
    (split_top_bottom images).1 i ch r c +
      pixelCNNForward P ((split_top_bottom images).1 i) ch r c

/-- The mutable state of a `MaskedConv2d` module: the `mask` buffer
registered by the constructor (shaped like the weight tensor) and the
`weight` and `bias` parameters. -/
structure MaskedConvState (cin cout k : ℕ) where
  mask : Fin cout → Fin cin → Fin k → Fin k → ℝ
  weight : Fin cout → Fin cin → Fin k → Fin k → ℝ
  bias : Fin cout → ℝ

/-- `MaskedConv2d.__init__` with a legal mask type: the mask buffer is
filled from the kernel geometry (every `(out, in)` slice equal to
`mkMask`), and the weight and bias start at the values PyTorch
initialised them to. -/
def maskedConvInit {cin cout k : ℕ} (mt : MaskType)
    (w0 : Fin cout → Fin cin → Fin k → Fin k → ℝ) (b0 : Fin cout → ℝ) :
    MaskedConvState cin cout k :=
  { mask := fun _ _ i j => mkMask mt k k i.val j.val
    weight := w0
    bias := b0 }

/-- `MaskedConv2d.__init__` as called with an arbitrary `mask_type` string:
`assert mask_type in ['A', 'B']` raises (`none`) on any other string,
before any mask is built. -/
def maskedConvInitChecked {cin cout k : ℕ} (mask_type : String)
    (w0 : Fin cout → Fin cin → Fin k → Fin k → ℝ) (b0 : Fin cout → ℝ) :
    Option (MaskedConvState cin cout k) :=
  if mask_type = "A" then some (maskedConvInit .A w0 b0)
  else if mask_type = "B" then some (maskedConvInit .B w0 b0)
  else none

/-- An event touching a `MaskedConv2d` module during training: a forward
application (`self.weight.data *= self.mask`, then convolve — only the
weight is written), or an optimizer step.  `optimizer.step()` (Adam) writes
only `model.parameters()` — the weight and bias; the mask was registered
with `register_buffer` and is not a parameter, so an optimizer step is an
arbitrary update of weight and bias leaving the mask alone. -/
inductive TrainEvent (cin cout k n : ℕ) where
  | forward (x : Fin cin → Fin n → Fin n → ℝ)
  | optStep
      (wUpd : (Fin cout → Fin cin → Fin k → Fin k → ℝ) →
        Fin cout → Fin cin → Fin k → Fin k → ℝ)
      (bUpd : (Fin cout → ℝ) → Fin cout → ℝ)

/-- The state change a training event makes to a `MaskedConv2d` module. -/
def applyEvent {cin cout k n : ℕ} (s : MaskedConvState cin cout k) :
    TrainEvent cin cout k n → MaskedConvState cin cout k
  | .forward _ =>
      { s with weight := fun o ic i j => s.weight o ic i j * s.mask o ic i j }
  | .optStep wUpd bUpd =>
      { s with weight := wUpd s.weight, bias := bUpd s.bias }

/-- Run a sequence of training events from a module state. -/
def runEvents {cin cout k n : ℕ} (s : MaskedConvState cin cout k)
    (l : List (TrainEvent cin cout k n)) : MaskedConvState cin cout k :=
  l.foldl applyEvent s

/-- Repeated calls of `MaskedConv2d.forward` with no intervening parameter
update: `repeatForward mt p x m` is the (parameter state, output) pair
after the call number `m + 1` on the same input. -/
def repeatForward {cin cout k n : ℕ} (mt : MaskType) (p : ConvParams cin cout k)
    (x : Fin cin → Fin n → Fin n → ℝ) :
    ℕ → ConvParams cin cout k × (Fin cout → Fin n → Fin n → ℝ)
  | 0 => maskedConvForwardSt mt p x
  | m + 1 => maskedConvForwardSt mt (repeatForward mt p x m).1 x

/-- Modelled from the spec: the notebook session as a set of defined
top-level names.  The missing part is the Python interpreter's
name-resolution rule (a `NameError` referenced-before-assignment fault when
a cell reads a name no earlier-executed cell assigned); the spec records
that inference/save fail exactly this way when the training cell has not
run.  `model` is assigned only by the training cell
(`model = PixelCNN().to(device)`). -/
def SessionEnv : Type := List String

/-- Modelled from the spec: outcome of evaluating a name in a session —
its value is found, or a referenced-before-assignment (`NameError`) fault
on that name. -/
inductive CellOutcome where
  | ok : CellOutcome
  | nameError (missing : String) : CellOutcome
deriving DecidableEq

/-- Modelled from the spec: Python resolves a free variable against the
session environment; an unassigned name raises `NameError`. -/
def lookupOutcome (env : List String) (name : String) : CellOutcome :=
  if name ∈ env then .ok else .nameError name

/-- The names the training cell assigns before any inference/save cell can
run (`model = PixelCNN().to(device)`, `optimizer = ...`,
`criterion = ...`). -/
def envAfterTraining (env : List String) : List String :=
  "model" :: "optimizer" :: "criterion" :: env

/-- Modelled from the spec: the inference cell's first use of the model is
the call `complete_images(model, test_loader)`, which evaluates the bare
name `model` with no precondition check or state validation. -/
def inferenceCellOutcome (env : List String) : CellOutcome :=
  lookupOutcome env "model"

/-- Modelled from the spec: the checkpoint cell is
`torch.save(model.state_dict(), "pixelcnn_model.pth")`, which evaluates
the bare name `model` with no precondition check or state validation. -/
def saveCellOutcome (env : List String) : CellOutcome :=
  lookupOutcome env "model"

/-! ## Basic facts about the activation functions -/

theorem sigmoid_pos (t : ℝ) : 0 < sigmoid t := by
  unfold sigmoid
  positivity

theorem sigmoid_le_one (t : ℝ) : sigmoid t ≤ 1 := by
  unfold sigmoid
  rw [div_le_one (by positivity)]
  have h := Real.exp_pos (-t)
  linarith

/-! ## Agreement lemmas for padded reads and masked convolutions -/

theorem readPad_agree_lt {n : ℕ} (x y : Fin n → Fin n → ℝ) (a b : Fin n)
    (h : ∀ u v : Fin n, rasterLt u.val v.val a.val b.val → x u v = y u v)
    (R C : ℤ) (hpos : R < (a.val : ℤ) ∨ (R = (a.val : ℤ) ∧ C < (b.val : ℤ))) :
    readPad x R C = readPad y R C := by
  unfold readPad
  split_ifs with hin
  · exact h ⟨R.toNat, by omega⟩ ⟨C.toNat, by omega⟩ (by unfold rasterLt; dsimp; omega)
  · rfl

theorem readPad_agree_le {n : ℕ} (x y : Fin n → Fin n → ℝ) (a b : Fin n)
    (h : ∀ u v : Fin n, rasterLe u.val v.val a.val b.val → x u v = y u v)
    (R C : ℤ) (hpos : R < (a.val : ℤ) ∨ (R = (a.val : ℤ) ∧ C ≤ (b.val : ℤ))) :
    readPad x R C = readPad y R C := by
  unfold readPad
  split_ifs with hin
  · exact h ⟨R.toNat, by omega⟩ ⟨C.toNat, by omega⟩ (by unfold rasterLe; dsimp; omega)
  · rfl

/-- An in-range padded read is just the grid entry. -/
theorem readPad_coe {n : ℕ} (x : Fin n → Fin n → ℝ) (r c : Fin n) :
    readPad x (r.val : ℤ) (c.val : ℤ) = x r c := by
  have hr := r.isLt
  have hc := c.isLt
  unfold readPad
  rw [dif_pos (by omega)]
  congr 1

/-- A mask-`'A'` convolution at `(a, b)` reads only input positions
strictly raster-before `(a, b)`: two inputs that agree there give the same
output at `(a, b)` on every out-channel. -/
theorem convA_agree_at {cin cout k n : ℕ} (p : ConvParams cin cout k)
    (x y : Fin cin → Fin n → Fin n → ℝ) (a b : Fin n)
    (h : ∀ (ch : Fin cin) (u v : Fin n),
      rasterLt u.val v.val a.val b.val → x ch u v = y ch u v) (o : Fin cout) :
    maskedConvForward .A p x o a b = maskedConvForward .A p y o a b := by
  unfold maskedConvForward conv2d
  congr 1
  refine Finset.sum_congr rfl fun ic _ => ?_
  refine Finset.sum_congr rfl fun i _ => ?_
  refine Finset.sum_congr rfl fun j _ => ?_
  by_cases h1 : k / 2 + 1 ≤ i.val
  · simp [maskWeights, mkMask, h1]
  · by_cases h2 : i.val = k / 2 ∧ k / 2 + maskOffset .A ≤ j.val
    · simp [maskWeights, mkMask, h1, h2]
    · have hoff : maskOffset .A = 0 := rfl
      rw [readPad_agree_lt (x ic) (y ic) a b (h ic) _ _ (by rw [hoff] at h2; omega)]

/-- A mask-`'B'` convolution at `(a, b)` reads only input positions at or
raster-before `(a, b)`: two inputs that agree there give the same output at
`(a, b)` on every out-channel. -/
theorem convB_agree_at {cin cout k n : ℕ} (p : ConvParams cin cout k)
    (x y : Fin cin → Fin n → Fin n → ℝ) (a b : Fin n)
    (h : ∀ (ch : Fin cin) (u v : Fin n),
      rasterLe u.val v.val a.val b.val → x ch u v = y ch u v) (o : Fin cout) :
    maskedConvForward .B p x o a b = maskedConvForward .B p y o a b := by
  unfold maskedConvForward conv2d
  congr 1
  refine Finset.sum_congr rfl fun ic _ => ?_
  refine Finset.sum_congr rfl fun i _ => ?_
  refine Finset.sum_congr rfl fun j _ => ?_
  by_cases h1 : k / 2 + 1 ≤ i.val
  · simp [maskWeights, mkMask, h1]
  · by_cases h2 : i.val = k / 2 ∧ k / 2 + maskOffset .B ≤ j.val
    · simp [maskWeights, mkMask, h1, h2]
    · have hoff : maskOffset .B = 1 := rfl
      rw [readPad_agree_le (x ic) (y ic) a b (h ic) _ _ (by rw [hoff] at h2; omega)]

/-- A `1 × 1` convolution at `(r, c)` reads only the input at `(r, c)`. -/
theorem conv1x1_agree {cin cout n : ℕ} (p : ConvParams cin cout 1)
    (x y : Fin cin → Fin n → Fin n → ℝ) (r c : Fin n)
    (h : ∀ ch : Fin cin, x ch r c = y ch r c) (o : Fin cout) :
    conv2d p x o r c = conv2d p y o r c := by
  unfold conv2d
  congr 1
  refine Finset.sum_congr rfl fun ic _ => ?_
  refine Finset.sum_congr rfl fun i _ => ?_
  refine Finset.sum_congr rfl fun j _ => ?_
  have harg1 : (r.val : ℤ) + (i.val : ℤ) - ((1 / 2 : ℕ) : ℤ) = (r.val : ℤ) := by
    omega
  have harg2 : (c.val : ℤ) + (j.val : ℤ) - ((1 / 2 : ℕ) : ℤ) = (c.val : ℤ) := by
    omega
  rw [harg1, harg2, readPad_coe, readPad_coe, h ic]

/-- The hidden mask-`'B'` blocks preserve agreement on the at-or-before
region of any position. -/
theorem hiddenStack_agree {hc n k : ℕ} (qs : List (ConvParams hc hc k))
    (r c : Fin n) :
    ∀ x y : Fin hc → Fin n → Fin n → ℝ,
      (∀ (ch : Fin hc) (a b : Fin n),
        rasterLe a.val b.val r.val c.val → x ch a b = y ch a b) →
      ∀ (ch : Fin hc) (a b : Fin n), rasterLe a.val b.val r.val c.val →
        hiddenStack qs x ch a b = hiddenStack qs y ch a b := by
  induction qs with
  | nil => exact fun x y h => h
  | cons q qs ih =>
    intro x y h
    refine ih (blockB q x) (blockB q y) ?_
    intro ch a b hab
    unfold blockB reluMap
    congr 1
    refine convB_agree_at q x y a b ?_ ch
    intro ch' u v huv
    refine h ch' u v ?_
    unfold rasterLe at huv hab ⊢
    omega

/-- C2: for a `MaskedConv2d` with odd kernel height `H` and width `W`, the
mask built in the constructor is exactly 1 at kernel position `(i, j)`
unless `i > H/2`, or `i = H/2` and `j ≥ W/2 + (0 if the mask type is 'A'
else 1)`, where it is exactly 0; the centre `(H/2, W/2)` is 0 for mask type
'A' and 1 for mask type 'B'. -/
theorem mask_construction_closed_form (mt : MaskType) (H W i j : ℕ)
    (_hH : Odd H) (_hW : Odd W) (_hi : i < H) (_hj : j < W) :
    (mkMask mt H W i j =
      if H / 2 < i ∨ (i = H / 2 ∧ W / 2 + maskOffset mt ≤ j) then 0 else 1)
    ∧ mkMask .A H W (H / 2) (W / 2) = 0
    ∧ mkMask .B H W (H / 2) (W / 2) = 1 := by
  refine ⟨?_, ?_, ?_⟩
  · unfold mkMask
    split_ifs <;> first | rfl | omega
  · simp only [mkMask, maskOffset]
    split_ifs with h1 h2
    · rfl
    · rfl
    · exact absurd ⟨trivial, by omega⟩ h2
  · simp only [mkMask, maskOffset]
    split_ifs with h1 h2
    · omega
    · exact absurd h2 (by omega)
    · rfl

theorem mask_construction_closed_form_witness :
    Odd 7 ∧ (3 : ℕ) < 7 ∧
      mkMask .A 7 7 3 3 = if 7 / 2 < 3 ∨ (3 = 7 / 2 ∧ 7 / 2 + maskOffset .A ≤ 3) then 0 else 1 :=
  ⟨by decide, by decide,
    (mask_construction_closed_form .A 7 7 3 3 (by decide) (by decide)
      (by decide) (by decide)).1⟩

/-- C10: constructing a `MaskedConv2d` with any `mask_type` other than
`'A'` or `'B'` fails the constructor's assertion (no state is built), and
construction with `'A'` or `'B'` never triggers it. -/
theorem mask_type_assertion {cin cout k : ℕ}
    (w0 : Fin cout → Fin cin → Fin k → Fin k → ℝ) (b0 : Fin cout → ℝ) :
    (∀ mask_type : String, mask_type ≠ "A" → mask_type ≠ "B" →
        maskedConvInitChecked mask_type w0 b0 = none)
    ∧ maskedConvInitChecked "A" w0 b0 = some (maskedConvInit .A w0 b0)
    ∧ maskedConvInitChecked "B" w0 b0 = some (maskedConvInit .B w0 b0) := by
  refine ⟨?_, ?_, ?_⟩
  · intro mask_type hA hB
    unfold maskedConvInitChecked
    rw [if_neg hA, if_neg hB]
  · rfl
  · rfl

theorem mask_type_assertion_witness :
    maskedConvInitChecked "C" (fun _ _ _ _ => (0 : ℝ))
      (fun _ : Fin 1 => (0 : ℝ)) = (none : Option (MaskedConvState 1 1 1)) :=
  (mask_type_assertion _ _).1 "C" (by decide) (by decide)

/-! ## Claim theorems: the top/bottom split -/

/-- C4: `split_top_bottom` is an idempotent partition — the top component
is zero from row 14 down and equals the input above, the bottom component
is zero above row 14 and equals the input from it down, the two components
sum pointwise to the input, and re-splitting the top component returns it
unchanged as the first component. -/
theorem split_top_bottom_partition {b ch : ℕ}
    (images : Fin b → Fin ch → Fin 28 → Fin 28 → ℝ) :
    (∀ i c (r : Fin 28) col, 14 ≤ r.val →
        (split_top_bottom images).1 i c r col = 0) ∧
    (∀ i c (r : Fin 28) col, r.val < 14 →
        (split_top_bottom images).1 i c r col = images i c r col) ∧
    (∀ i c (r : Fin 28) col, r.val < 14 →
        (split_top_bottom images).2 i c r col = 0) ∧
    (∀ i c (r : Fin 28) col, 14 ≤ r.val →
        (split_top_bottom images).2 i c r col = images i c r col) ∧
    (∀ i c r col,
        (split_top_bottom images).1 i c r col +
          (split_top_bottom images).2 i c r col = images i c r col) ∧
    (split_top_bottom ((split_top_bottom images).1)).1 =
      (split_top_bottom images).1 := by
  refine ⟨?_, ?_, ?_, ?_, ?_, ?_⟩
  · intro i c r col hr
    simp only [split_top_bottom, if_pos hr]
  · intro i c r col hr
    simp only [split_top_bottom, if_neg (by omega : ¬ 14 ≤ r.val)]
  · intro i c r col hr
    simp only [split_top_bottom, if_pos hr]
  · intro i c r col hr
    simp only [split_top_bottom, if_neg (by omega : ¬ r.val < 14)]
  · intro i c r col
    simp only [split_top_bottom]
    by_cases h : 14 ≤ r.val
    · rw [if_pos h, if_neg (by omega : ¬ r.val < 14), zero_add]
    · rw [if_neg h, if_pos (by omega : r.val < 14), add_zero]
  · funext i c r col
    simp only [split_top_bottom]
    split_ifs <;> rfl

theorem split_top_bottom_partition_witness :
    (split_top_bottom (fun _ _ _ _ => (1 : ℝ))).1 (0 : Fin 1) (0 : Fin 1)
      (⟨14, by norm_num⟩ : Fin 28) (0 : Fin 28) = 0 :=
  (split_top_bottom_partition _).1 0 0 ⟨14, by norm_num⟩ 0 (by norm_num)

/-! ## Claim theorems: bounded outputs -/

/-- C5: for every parameter setting and every input grid with arbitrary
real entries, every entry of the output of `PixelCNN.forward` lies in
`[0, 1]` — the final sigmoid bounds each per-pixel value. -/
theorem pixelCNN_output_bounded {cin hc n : ℕ} (P : PixelCNNParams cin hc)
    (x : Fin cin → Fin n → Fin n → ℝ) (ch : Fin cin) (r c : Fin n) :
    0 ≤ pixelCNNForward P x ch r c ∧ pixelCNNForward P x ch r c ≤ 1 :=
  ⟨(sigmoid_pos _).le, sigmoid_le_one _⟩

/-! ## Claim theorems: autoregressive noninterference -/

/-- C6: for a single `MaskedConv2d` layer with mask type `'B'`, any two
inputs that agree at every raster position at or before `(r, c)` give the
same layer output at `(r, c)` — the output there is invariant to changes
at positions strictly after `(r, c)` in raster order. -/
theorem maskB_layer_noninterference {cin cout k n : ℕ}
    (p : ConvParams cin cout k) (x y : Fin cin → Fin n → Fin n → ℝ)
    (r c : Fin n)
    (h : ∀ (ch : Fin cin) (u v : Fin n),
      rasterLe u.val v.val r.val c.val → x ch u v = y ch u v) (o : Fin cout) :
    maskedConvForward .B p x o r c = maskedConvForward .B p y o r c :=
  convB_agree_at p x y r c h o

theorem maskB_layer_noninterference_witness :
    @maskedConvForward 1 1 7 2 .B ⟨fun _ _ _ _ => 1, fun _ => 0⟩
        (fun _ _ _ => 0) 0 0 0 =
      @maskedConvForward 1 1 7 2 .B ⟨fun _ _ _ _ => 1, fun _ => 0⟩
        (fun _ u v => if u.val + v.val = 0 then 0 else 1) 0 0 0 :=
  maskB_layer_noninterference _ _ _ 0 0
    (fun ch u v huv => by
      have hu := u.isLt
      have hv := v.isLt
      unfold rasterLe at huv
      rw [if_pos (by omega : u.val + v.val = 0)]) 0

/-- C1: network-level autoregressive noninterference — for every position
`(r, c)` and any two input grids that agree at every raster position
strictly before `(r, c)` (they may differ at `(r, c)` and later), the full
PixelCNN network (strict mask-`'A'` first layer, relaxed mask-`'B'`
layers, `1 × 1` convolution, sigmoid) gives the same output at `(r, c)`
for both. -/
theorem pixelCNN_noninterference {cin hc n : ℕ} (P : PixelCNNParams cin hc)
    (x y : Fin cin → Fin n → Fin n → ℝ) (r c : Fin n)
    (h : ∀ (ch : Fin cin) (u v : Fin n),
      rasterLt u.val v.val r.val c.val → x ch u v = y ch u v)
    (ch : Fin cin) :
    pixelCNNForward P x ch r c = pixelCNNForward P y ch r c := by
  have hA : ∀ (c' : Fin hc) (a b : Fin n), rasterLe a.val b.val r.val c.val →
      reluMap (maskedConvForward .A P.first x) c' a b =
        reluMap (maskedConvForward .A P.first y) c' a b := by
    intro c' a b hab
    unfold reluMap
    congr 1
    refine convA_agree_at P.first x y a b ?_ c'
    intro ch' u v huv
    refine h ch' u v ?_
    unfold rasterLt at huv ⊢
    unfold rasterLe at hab
    omega
  have hH := hiddenStack_agree P.hidden r c _ _ hA
  unfold pixelCNNForward
  refine congrArg sigmoid ?_
  refine conv1x1_agree P.final _ _ r c ?_ ch
  intro ch'
  exact hH ch' r c (Or.inr ⟨rfl, le_refl _⟩)

theorem pixelCNN_noninterference_witness :
    @pixelCNNForward 1 1 1
        ⟨⟨fun _ _ _ _ => 0, fun _ => 0⟩, [], ⟨fun _ _ _ _ => 0, fun _ => 0⟩⟩
        (fun _ _ _ => 0) 0 0 0 =
      @pixelCNNForward 1 1 1
        ⟨⟨fun _ _ _ _ => 0, fun _ => 0⟩, [], ⟨fun _ _ _ _ => 0, fun _ => 0⟩⟩
        (fun _ _ _ => 1) 0 0 0 :=
  pixelCNN_noninterference _ _ _ 0 0
    (fun ch u v huv => by
      have hu := u.isLt
      have hv := v.isLt
      unfold rasterLt at huv
      omega) 0

/-! ## Claim theorems: the completion merge -/

/-- C3 (code behaviour at the claimed property): `complete_images` adds
the network's full sigmoid output to the top half.  At rows at or below
the midpoint the completed image does equal the predicted output (the top
half is zero there), but at every row above the midpoint the completed
value is the original value plus a strictly positive sigmoid value, so the
completed image is strictly larger than — not equal to — the given top
half there. -/
theorem complete_images_divergence {b cin hc : ℕ} (P : PixelCNNParams cin hc)
    (images : Fin b → Fin cin → Fin 28 → Fin 28 → ℝ) (i : Fin b)
    (ch : Fin cin) (r c : Fin 28) :
    (14 ≤ r.val → complete_images P images i ch r c =
        pixelCNNForward P ((split_top_bottom images).1 i) ch r c)
    ∧ (r.val < 14 →
        images i ch r c < complete_images P images i ch r c) := by
  constructor
  · intro hr
    unfold complete_images
    rw [show (split_top_bottom images).1 i ch r c = 0 from by
        simp only [split_top_bottom, if_pos hr],
      zero_add]
  · intro hr
    unfold complete_images
    rw [show (split_top_bottom images).1 i ch r c = images i ch r c from by
        simp only [split_top_bottom, if_neg (by omega : ¬ 14 ≤ r.val)]]
    have hpos : 0 < pixelCNNForward P ((split_top_bottom images).1 i) ch r c :=
      sigmoid_pos _
    linarith

theorem complete_images_divergence_witness :
    ((0 : ℕ) < 14) ∧
      (0 : ℝ) < @complete_images 1 1 1
        ⟨⟨fun _ _ _ _ => 0, fun _ => 0⟩, [], ⟨fun _ _ _ _ => 0, fun _ => 0⟩⟩
        (fun _ _ _ _ => 0) 0 0 0 0 :=
  ⟨by norm_num,
    (complete_images_divergence
      ⟨⟨fun _ _ _ _ => 0, fun _ => 0⟩, [], ⟨fun _ _ _ _ => 0, fun _ => 0⟩⟩
      (fun _ _ _ _ => 0) 0 0 0 0).2 (by norm_num)⟩

/-! ## Claim theorems: state invariants of the layer -/

/-- C7: the mask buffer of a `MaskedConv2d` is never modified after
construction — any sequence of forward applications (which overwrite the
weights with masked weights) and optimizer steps (which overwrite weights
and biases) leaves the mask equal to the value fixed by the
constructor. -/
theorem mask_constant_under_training {cin cout k n : ℕ} (mt : MaskType)
    (w0 : Fin cout → Fin cin → Fin k → Fin k → ℝ) (b0 : Fin cout → ℝ)
    (events : List (TrainEvent cin cout k n)) :
    (runEvents (maskedConvInit mt w0 b0) events).mask =
      (maskedConvInit mt w0 b0).mask := by
  suffices hgen : ∀ s : MaskedConvState cin cout k,
      (runEvents (n := n) s events).mask = s.mask from hgen _
  induction events with
  | nil => intro s; rfl
  | cons e es ih =>
    intro s
    have h1 : runEvents s (e :: es) = runEvents (applyEvent s e) es := rfl
    rw [h1, ih]
    cases e <;> rfl

theorem mkMask_idem (mt : MaskType) (H W i j : ℕ) :
    mkMask mt H W i j * mkMask mt H W i j = mkMask mt H W i j := by
  unfold mkMask
  split_ifs <;> norm_num

theorem maskWeights_idem {cin cout k : ℕ} (mt : MaskType)
    (p : ConvParams cin cout k) :
    maskWeights mt (maskWeights mt p) = maskWeights mt p := by
  unfold maskWeights
  congr 1
  funext o ic i j
  dsimp only
  rw [mul_assoc, mkMask_idem]

/-- C9: although `MaskedConv2d.forward` overwrites the stored weights with
masked weights before convolving, masking with the 0/1 mask is idempotent:
every repeated call with no intervening parameter update returns the same
(state, output) pair as the first call, and the output is the standard
convolution with the masked weights. -/
theorem masked_forward_idempotent {cin cout k n : ℕ} (mt : MaskType)
    (p : ConvParams cin cout k) (x : Fin cin → Fin n → Fin n → ℝ) (m : ℕ) :
    repeatForward mt p x m = maskedConvForwardSt mt p x
    ∧ (maskedConvForwardSt mt p x).2 = conv2d (maskWeights mt p) x := by
  refine ⟨?_, rfl⟩
  induction m with
  | zero => rfl
  | succ m ih =>
    show maskedConvForwardSt mt (repeatForward mt p x m).1 x = _
    rw [ih]
    show maskedConvForwardSt mt (maskWeights mt p) x = maskedConvForwardSt mt p x
    unfold maskedConvForwardSt maskedConvForward
    rw [maskWeights_idem]

/-! ## Claim theorems: session ordering fault -/

/-- C8: in a session whose environment does not define `model` (the
training cell has not run), both the inference cell and the checkpoint
save cell fail with a referenced-before-assignment fault on `model` —
there is no precondition check guarding them — while after the training
cell both proceed. -/
theorem untrained_session_name_fault (env : List String)
    (h : "model" ∉ env) :
    inferenceCellOutcome env = .nameError "model"
    ∧ saveCellOutcome env = .nameError "model"
    ∧ inferenceCellOutcome (envAfterTraining env) = .ok
    ∧ saveCellOutcome (envAfterTraining env) = .ok := by
  refine ⟨?_, ?_, ?_, ?_⟩ <;>
    simp [inferenceCellOutcome, saveCellOutcome, lookupOutcome,
      envAfterTraining, h]

theorem untrained_session_name_fault_witness :
    inferenceCellOutcome [] = .nameError "model" :=
  (untrained_session_name_fault [] (by simp)).1

end PixelCNNRepo
